import Mathlib

/-!
Verification development for the ALB-access-log → Loki forwarder
(`src/main.js`).  The JavaScript source is shallowly embedded: pure
computations become Lean functions, the regex on line 103 becomes a small
backtracking matcher over an explicit element list transcribed from the
pattern, thrown JS exceptions become `Except`/`Option` error values, and
the externally supplied collaborators (S3 fetch + gunzip, wall clock,
`Date` parsing) become function parameters.  All definitions are
executable so that concrete scenarios evaluate by `decide`/`rfl`.
-/

namespace AlbLoki

/-- JavaScript runtime errors that the embedded code can raise. -/
inductive JsErr where
  | typeError (msg : String)
  | syntaxError (msg : String)
  | referenceError (name : String)
  deriving DecidableEq, Repr

/-! ## Splitting a blob into lines

`sendToLoki` (main.js:101-102) does `logData.split('\n')` followed by
`logArray.pop()`.  `String.prototype.split` with a one-character separator
cuts at every occurrence and keeps empty segments, so a trailing newline
produces a final empty element; `pop` removes the final element. -/

/-- JS `s.split('\n')` on the character list of `s`: always returns at
least one (possibly empty) segment, and a trailing `'\n'` yields a final
empty segment. -/
def splitNl : List Char → List (List Char)
  | [] => [[]]
  | c :: cs =>
    if c = '\n' then [] :: splitNl cs
    else
      match splitNl cs with
      | [] => [[c]]
      | l :: ls => (c :: l) :: ls

/-- Lines that the blob-level loop iterates over: `split('\n')` then
`pop()` (main.js:101-102). -/
def linesOfL (blob : List Char) : List (List Char) :=
  (splitNl blob).dropLast

/-- Same, starting from a `String` blob. -/
def linesOf (blob : String) : List (List Char) :=
  linesOfL blob.data

/-! ## The ALB log-line regex (main.js:103)

The pattern is a fixed sequence of elements: literal characters, `\s+`
runs, lazy `.*?` groups (capturing or not) and one greedy `[0-9]+` group.
`albRegex` below transcribes it element by element.  `mstep` is a
backtracking matcher with JS regex semantics for exactly these
constructs: lazy quantifiers try the shortest extension first, greedy
quantifiers the longest, alternatives are explored depth-first in pattern
order, the match is anchored at the start (the source pattern begins with
`^`) and the pattern may end before the subject does (no `$`).  The
matcher is fueled so that it stays structurally recursive; the fuel
chosen in `lineMatch` exceeds the depth of any exploration path. -/

/-- One element of the fixed ALB pattern. -/
inductive RElem where
  | lit (c : Char)
  | ws
  | lazyCap
  | lazySkip
  | digitsCap
  deriving DecidableEq, Repr

/-- JS `\s` (the whitespace characters relevant to log lines). -/
def isWsChar (c : Char) : Bool :=
  c = ' ' || c = '\t' || c = '\n' || c = '\r' || c = '\x0b' || c = '\x0c' || c = '\u00A0'

/-- JS `.` without the `s` flag: anything but a line terminator. -/
def isDotChar (c : Char) : Bool :=
  !(c = '\n' || c = '\r' || c = Char.ofNat 0x2028 || c = Char.ofNat 0x2029)

/-- `[0-9]`. -/
def isDigitChar (c : Char) : Bool :=
  decide (48 ≤ c.toNat) && decide (c.toNat ≤ 57)

/-- Length of the leading whitespace run. -/
def wsRun : List Char → Nat
  | [] => 0
  | c :: cs => if isWsChar c then wsRun cs + 1 else 0

/-- Length of the leading digit run. -/
def digRun : List Char → Nat
  | [] => 0
  | c :: cs => if isDigitChar c then digRun cs + 1 else 0

/-- A matcher task: matching the remaining pattern, backtracking inside a
`\s+` run, extending a lazy `.*?`, or backtracking inside `[0-9]+`. -/
inductive MJob where
  | run (ps : List RElem) (s : List Char) (acc : List String)
  | wsb (ps : List RElem) (s : List Char) (acc : List String) (j : Nat)
  | lazy (cap : Bool) (taken : List Char) (ps : List RElem) (s : List Char) (acc : List String)
  | dig (ps : List RElem) (s : List Char) (acc : List String) (j : Nat)
  deriving Repr

/-- Backtracking matcher.  Returns the capture list (in group order) of
the first match found in JS exploration order, or `none`. -/
def mstep : Nat → MJob → Option (List String)
  | 0, _ => none
  | Nat.succ fuel, MJob.run ps s acc =>
    match ps with
    | [] => some acc
    | RElem.lit c :: ps' =>
      match s with
      | [] => none
      | c' :: s' => if c' = c then mstep fuel (MJob.run ps' s' acc) else none
    | RElem.ws :: ps' => mstep fuel (MJob.wsb ps' s acc (wsRun s))
    | RElem.lazyCap :: ps' => mstep fuel (MJob.lazy true [] ps' s acc)
    | RElem.lazySkip :: ps' => mstep fuel (MJob.lazy false [] ps' s acc)
    | RElem.digitsCap :: ps' => mstep fuel (MJob.dig ps' s acc (digRun s))
  | Nat.succ fuel, MJob.wsb ps s acc j =>
    match j with
    | 0 => none
    | Nat.succ j' =>
      match mstep fuel (MJob.run ps (s.drop (j' + 1)) acc) with
      | some r => some r
      | none => mstep fuel (MJob.wsb ps s acc j')
  | Nat.succ fuel, MJob.lazy cap taken ps s acc =>
    match mstep fuel (MJob.run ps s (if cap then acc ++ [String.mk taken.reverse] else acc)) with
    | some r => some r
    | none =>
      match s with
      | [] => none
      | c :: s' =>
        if isDotChar c then mstep fuel (MJob.lazy cap (c :: taken) ps s' acc) else none
  | Nat.succ fuel, MJob.dig ps s acc j =>
    match j with
    | 0 => none
    | Nat.succ j' =>
      match mstep fuel (MJob.run ps (s.drop (j' + 1)) (acc ++ [String.mk (s.take (j' + 1))])) with
      | some r => some r
      | none => mstep fuel (MJob.dig ps s acc j')

/-- Number of capturing groups in a pattern suffix. -/
def groupCount : List RElem → Nat
  | [] => 0
  | RElem.lazyCap :: ps => groupCount ps + 1
  | RElem.digitsCap :: ps => groupCount ps + 1
  | _ :: ps => groupCount ps

/-- Capture count a task will have produced when it succeeds. -/
def jobLen : MJob → Nat
  | MJob.run ps _ acc => acc.length + groupCount ps
  | MJob.wsb ps _ acc _ => acc.length + groupCount ps
  | MJob.lazy cap _ ps _ acc => acc.length + (if cap then 1 else 0) + groupCount ps
  | MJob.dig ps _ acc _ => acc.length + 1 + groupCount ps

/-- The pattern of main.js:103, element by element, in source order. -/
def albRegex : List RElem :=
  [RElem.lazyCap, RElem.ws,                                   -- type
   RElem.lazyCap, RElem.ws,                                   -- time
   RElem.lazyCap, RElem.ws,                                   -- elb
   RElem.lazyCap, RElem.ws,                                   -- client
   RElem.lazyCap, RElem.ws,                                   -- target
   RElem.lazyCap, RElem.ws,                                   -- req_proc_time
   RElem.lazyCap, RElem.ws,                                   -- target_proc_time
   RElem.lazyCap, RElem.ws,                                   -- resp_proc_time
   RElem.lazyCap, RElem.ws,                                   -- elb_status
   RElem.lazyCap, RElem.ws,                                   -- target_status
   RElem.lazyCap, RElem.ws,                                   -- recv_bytes
   RElem.lazyCap, RElem.ws,                                   -- sent_bytes
   RElem.lit '"', RElem.lazyCap, RElem.lit '"', RElem.ws,     -- request
   RElem.lit '"', RElem.lazyCap, RElem.lit '"', RElem.ws,     -- user_agent
   RElem.lit '-', RElem.ws, RElem.lit '-', RElem.ws,
   RElem.lazyCap, RElem.ws,                                   -- target_group_arn
   RElem.lit '"', RElem.lazyCap, RElem.lit '"', RElem.ws,     -- trace_id
   RElem.lazySkip, RElem.digitsCap, RElem.ws,                 -- match_priority
   RElem.lazyCap, RElem.ws,                                   -- req_creation_time
   RElem.lit '"', RElem.lazyCap, RElem.lit '"', RElem.ws,     -- action_executed
   RElem.lazySkip, RElem.lit '"', RElem.lit '-', RElem.lit '"', RElem.ws,
   RElem.lit '"', RElem.lit '-', RElem.lit '"', RElem.ws,
   RElem.lit '"', RElem.lazyCap, RElem.lit '"', RElem.ws,     -- target_list
   RElem.lit '"', RElem.lazyCap, RElem.lit '"', RElem.ws]     -- status_code

/-- The key list of main.js:111-113, in source order. -/
def albKeys : List String :=
  ["type", "time", "elb", "client", "target", "req_proc_time",
   "target_proc_time", "resp_proc_time", "elb_status", "target_status",
   "recv_bytes", "sent_bytes", "request", "user_agent", "target_group_arn",
   "trace_id", "match_priority", "req_creation_time", "action_executed",
   "target_list", "status_code"]

/-- Fuel that bounds the depth of any exploration path of `mstep` on the
ALB pattern: every nested call either consumes a subject character,
advances past a pattern element, or shrinks a backtracking counter that
is itself bounded by the subject length. -/
def albFuel (s : List Char) : Nat :=
  (albRegex.length + 2) * (s.length + 2)

/-- JS `line.match(re)` for the pattern of main.js:103, reduced to the
capture list `groups[1..]`; `none` models the `null` result. -/
def lineMatch (s : List Char) : Option (List String) :=
  mstep (albFuel s) (MJob.run albRegex s [])

/-! ## JSON serialization of a record (main.js:116)

`JSON.stringify(jsonLogObj)` on an object whose values are all strings. -/

def lbrace : Char := Char.ofNat 123

def rbrace : Char := Char.ofNat 125

/-- Lower-case hex digit. -/
def hexDigit (n : Nat) : Char :=
  if n < 10 then Char.ofNat (48 + n) else Char.ofNat (87 + n)

/-- `JSON.stringify` escaping of a single character inside a string. -/
def escChar (c : Char) : String :=
  if c = '"' then "\\\""
  else if c = '\\' then "\\\\"
  else if c = '\x08' then "\\b"
  else if c = '\t' then "\\t"
  else if c = '\n' then "\\n"
  else if c = '\x0c' then "\\f"
  else if c = '\r' then "\\r"
  else if c.toNat < 32 then
    String.mk ['\\', 'u', '0', '0', hexDigit (c.toNat / 16), hexDigit (c.toNat % 16)]
  else String.singleton c

/-- A JSON string literal for `s`. -/
def jsonQuote (s : String) : String :=
  "\"" ++ String.join (s.data.map escChar) ++ "\""

/-- `JSON.stringify` of an object whose values are strings, fields in
insertion order. -/
def jsonStringify (fields : List (String × String)) : String :=
  String.singleton lbrace
    ++ String.intercalate "," (fields.map (fun kv => jsonQuote kv.1 ++ ":" ++ jsonQuote kv.2))
    ++ String.singleton rbrace

/-! ## The per-line loop of `sendToLoki` (main.js:100-152)

Each iteration matches one line, builds `jsonLogObj` by reading
`groups[1..21]` (main.js:111-115), serializes it, and issues one Loki
push whose single value pair is `[Date.now() * 1000000, jsonLogLine]`
(main.js:126-147).  When `line.match(re)` is `null`, reading `groups[1]`
throws a TypeError (main.js:114), which aborts the loop: no further line
is processed and the `sendToLoki` promise rejects.  The wall clock is the
parameter `times` (iteration index ↦ `Date.now()` in ms); submissions are
recorded as the issued `(nanosecond timestamp, payload)` pairs (a
rejected push is caught and only logged, main.js:148-150, so it does not
alter the loop). -/

/-- The TypeError raised by main.js:114 when the match was `null`. -/
def nullGroupsErr : JsErr :=
  JsErr.typeError "Cannot read properties of null (reading 1)"

/-- The loop: returns the pushes issued (in order) and the error that
aborted the loop, if any. -/
def lokiRun (times : Nat → Nat) : Nat → List (List Char) →
    List (Nat × String) × Option JsErr
  | _, [] => ([], none)
  | idx, line :: rest =>
    match lineMatch line with
    | none => ([], some nullGroupsErr)
    | some caps =>
      let entry := (times idx * 1000000, jsonStringify (albKeys.zip caps))
      let res := lokiRun times (idx + 1) rest
      (entry :: res.1, res.2)

/-- `sendToLoki(logData)` (main.js:100): split, pop, loop. -/
def sendToLoki (times : Nat → Nat) (logData : String) :
    List (Nat × String) × Option JsErr :=
  lokiRun times 0 (linesOf logData)

/-- The entries the loop issues for a run of matching lines. -/
def lokiEntries (times : Nat → Nat) : Nat → List (List Char) → List (Nat × String)
  | _, [] => []
  | idx, line :: rest =>
    (times idx * 1000000, jsonStringify (albKeys.zip ((lineMatch line).getD [])))
      :: lokiEntries times (idx + 1) rest

/-! ## Concrete scenario inputs -/

/-- A minimal line matching the grammar of main.js:103 (single-character
fields, trailing space). -/
def wLine : List Char :=
  "h t e c t 0 0 0 2 2 1 1 \"r\" \"u\" - - g \"t\" 1 c \"f\" \"-\" \"-\" \"l\" \"2\" ".data

/-- The captures the pattern produces on `wLine`. -/
def wCaps : List String :=
  ["h", "t", "e", "c", "t", "0", "0", "0", "2", "2", "1", "1", "r", "u",
   "g", "t", "1", "c", "f", "l", "2"]

/-- A strictly increasing wall clock (iteration index ↦ ms). -/
def idTimes : Nat → Nat := fun i => i + 1

/-- Blob: one valid line, then a malformed line `x`, then another valid
line, with trailing newline. -/
def c1Blob : String :=
  "h t e c t 0 0 0 2 2 1 1 \"r\" \"u\" - - g \"t\" 1 c \"f\" \"-\" \"-\" \"l\" \"2\" \nx\nh t e c t 0 0 0 2 2 1 1 \"r\" \"u\" - - g \"t\" 1 c \"f\" \"-\" \"-\" \"l\" \"2\" \n"

/-- The spec example blob for trailing-newline handling. -/
def c8Blob : String := "lineA\nlineB\n"

/-- Blob of two valid lines. -/
def c9Blob : String :=
  "h t e c t 0 0 0 2 2 1 1 \"r\" \"u\" - - g \"t\" 1 c \"f\" \"-\" \"-\" \"l\" \"2\" \nh t e c t 0 0 0 2 2 1 1 \"r\" \"u\" - - g \"t\" 1 c \"f\" \"-\" \"-\" \"l\" \"2\" \n"

/-- Blob of one valid line. -/
def c9OneBlob : String :=
  "h t e c t 0 0 0 2 2 1 1 \"r\" \"u\" - - g \"t\" 1 c \"f\" \"-\" \"-\" \"l\" \"2\" \n"

/-! ## JS values and the notification handler (main.js:155-182)

`JsVal` models the values produced by `JSON.parse` plus `undefined`
(which property access can produce).  `member` is JS property read
`v.k`: a `TypeError` on `undefined`/`null`, the field (or `undefined`)
on objects, `undefined` on other primitives. -/

inductive JsVal where
  | jundef
  | jnull
  | jbool (b : Bool)
  | jnum (lex : String)
  | jstr (s : String)
  | jarr (elems : List JsVal)
  | jobj (fields : List (String × JsVal))
  deriving Repr

/-- First-occurrence field lookup (the witnesses use no duplicate keys). -/
def lookupStr : List (String × JsVal) → String → JsVal
  | [], _ => JsVal.jundef
  | (k0, v0) :: rest, k => if k0 = k then v0 else lookupStr rest k

/-- JS property read `v.k`. -/
def member (v : JsVal) (k : String) : Except JsErr JsVal :=
  match v with
  | JsVal.jundef =>
    Except.error (JsErr.typeError ("Cannot read properties of undefined (reading " ++ k ++ ")"))
  | JsVal.jnull =>
    Except.error (JsErr.typeError ("Cannot read properties of null (reading " ++ k ++ ")"))
  | JsVal.jobj fs => Except.ok (lookupStr fs k)
  | _ => Except.ok JsVal.jundef

/-- JS string coercion of a non-array value. -/
def jsToStringAtom : JsVal → String
  | JsVal.jundef => "undefined"
  | JsVal.jnull => "null"
  | JsVal.jbool b => cond b "true" "false"
  | JsVal.jnum lex => lex
  | JsVal.jstr s => s
  | JsVal.jarr _ => ""
  | JsVal.jobj _ => "[object Object]"

/-- JS string coercion; arrays join their elements with commas (one
level — the handler only ever coerces strings). -/
def jsToString : JsVal → String
  | JsVal.jarr xs => String.intercalate "," (xs.map jsToStringAtom)
  | v => jsToStringAtom v

/-- Externally observable steps of one record's processing, in program
order: the watermark read of the `if` (main.js:162), the S3 fetch
(main.js:88), the `console.log(err)` of the fetch catch (main.js:93),
one Loki push per line (main.js:126), other `console.log`s, and the
watermark write (main.js:176). -/
inductive Action where
  | readWm (w : Nat)
  | fetchObj (bucket key : String)
  | logErr
  | submit (tsNs : Nat) (payload : String)
  | logMsg (m : String)
  | writeWm (t : Nat)
  deriving DecidableEq, Repr

/-- Result of processing one record: the action trace, whether the
watermark test accepted the event, the resulting watermark, the event's
time in ms (`new Date(record.eventTime).getTime()`), and the error the
callback's promise rejected with, if any. -/
structure ProcOutcome where
  actions : List Action
  accepted : Bool
  watermark : Nat
  eventT : Nat
  err : Option JsErr
  deriving DecidableEq, Repr

/-- `eventName` of an S3 creation event. -/
def putName : String := "ObjectCreated:Put"

/-- JS `record.eventName === 'ObjectCreated:Put'`: strict equality of a
value with a string literal. -/
def isPutName : JsVal → Bool
  | JsVal.jstr s => s = putName
  | _ => false

/-- The accepted branch of the callback (main.js:163-176), given the
event time `t` already read: everything after the watermark test.
Returns the action tail (after the initial watermark read) and the error
that aborted the branch, if any.  The tail ends with the watermark write
`Action.writeWm t` (line 176) exactly when no error was thrown before
reaching it.  Line-by-line: `record.s3` (163), `record.eventName ===
'ObjectCreated:Put'` (164), the parameter object `{bucket: s3.bucket,
logObject: s3.object}` (165-168) and `details.bucket.name` /
`details.logObject.key` (82-83, outside the try), `s3.getObject` +
`ungzip` as the external oracle `fetch` (86-91, `none` = caught failure,
logged at 93), the template literal of line 171 which reads
`snsMessage.bucket.name` and `snsMessage.object.Key`, and `sendToLoki`
(173).  The original text of the line-171 log message contains an
apostrophe, elided here. -/
def bodyRun (fetch : String → String → Option String)
    (times : Nat → Nat) (msg record : JsVal) (t : Nat) :
    List Action × Option JsErr :=
  match member record "s3" with
  | Except.error e => ([], some e)
  | Except.ok s3v =>
    match member record "eventName" with
    | Except.error e => ([], some e)
    | Except.ok env =>
      if isPutName env then
        match member s3v "bucket" with
        | Except.error e => ([], some e)
        | Except.ok bo =>
          match member s3v "object" with
          | Except.error e => ([], some e)
          | Except.ok oo =>
            match member bo "name" with
            | Except.error e => ([], some e)
            | Except.ok bnv =>
              match member oo "key" with
              | Except.error e => ([], some e)
              | Except.ok okv =>
                let bname := jsToString bnv
                let okey := jsToString okv
                match fetch bname okey with
                | none =>
                  match member msg "bucket" with
                  | Except.error e =>
                    ([Action.fetchObj bname okey, Action.logErr], some e)
                  | Except.ok mb =>
                    match member mb "name" with
                    | Except.error e =>
                      ([Action.fetchObj bname okey, Action.logErr], some e)
                    | Except.ok mbn =>
                      match member msg "object" with
                      | Except.error e =>
                        ([Action.fetchObj bname okey, Action.logErr], some e)
                      | Except.ok mo =>
                        match member mo "Key" with
                        | Except.error e =>
                          ([Action.fetchObj bname okey, Action.logErr], some e)
                        | Except.ok mok =>
                          ([Action.fetchObj bname okey, Action.logErr,
                            Action.logMsg ("Couldnt get log data for "
                              ++ jsToString mbn ++ "/" ++ jsToString mok),
                            Action.writeWm t], none)
                | some blob =>
                  let res := sendToLoki times blob
                  match res.2 with
                  | some e =>
                    (Action.fetchObj bname okey
                       :: res.1.map (fun en => Action.submit en.1 en.2), some e)
                  | none =>
                    (Action.fetchObj bname okey
                       :: (res.1.map (fun en => Action.submit en.1 en.2)
                           ++ [Action.writeWm t]), none)
      else ([Action.writeWm t], none)

/-- One record's processing by the async callback (main.js:160-177),
run to completion in isolation: `new Date(record.eventTime)` (161), the
watermark test (162), the accepted branch (`bodyRun`), and the final
watermark assignment `lastUpdated = eventTime` (176) — which the source
places after the `await`ed fetch/submit work, so it is reached only when
no exception was thrown.  `dateMs` is the external `Date` parser (ISO
string ↦ ms). -/
def processRecord (dateMs : JsVal → Nat) (fetch : String → String → Option String)
    (times : Nat → Nat) (msg record : JsVal) (w : Nat) : ProcOutcome :=
  match member record "eventTime" with
  | Except.error e => ⟨[], false, w, 0, some e⟩
  | Except.ok tv =>
    let t := dateMs tv
    if t > w then
      let b := bodyRun fetch times msg record t
      ⟨Action.readWm w :: b.1, true,
       match b.2 with | none => t | some _ => w, t, b.2⟩
    else ⟨[Action.readWm w], false, w, t, none⟩

/-- Records of one message processed sequentially, each to completion
(the claims C5-C7 concern this one-event-at-a-time discipline; the
source's `forEach` of async callbacks can interleave them at the
`await`s, which §5 of the spec discusses separately). -/
def processSeq (dateMs : JsVal → Nat) (fetch : String → String → Option String)
    (times : Nat → Nat) (msg : JsVal) : List JsVal → Nat → List ProcOutcome × Nat
  | [], w => ([], w)
  | r :: rs, w =>
    let o := processRecord dateMs fetch times msg r w
    let res := processSeq dateMs fetch times msg rs o.watermark
    (o :: res.1, res.2)

/-- Event times of the accepted outcomes. -/
def acceptedTimes (os : List ProcOutcome) : List Nat :=
  os.filterMap (fun o => if o.accepted then some o.eventT else none)

/-- Is the action a watermark write? -/
def isWriteAct : Action → Bool
  | Action.writeWm _ => true
  | _ => false

/-- Is the action a watermark read? -/
def isReadAct : Action → Bool
  | Action.readWm _ => true
  | _ => false

/-- Is the action the S3 fetch? -/
def isFetchAct : Action → Bool
  | Action.fetchObj _ _ => true
  | _ => false

/-- Index of the first action satisfying `p`. -/
def firstIdxWhere (p : Action → Bool) : List Action → Option Nat
  | [] => none
  | a :: tr => if p a then some 0 else (firstIdxWhere p tr).map (· + 1)

/-- The ordering C6 asserts: the watermark write occurs, and the first
write precedes the first fetch. -/
def wmUpdatedBeforeFetch (tr : List Action) : Bool :=
  match firstIdxWhere isWriteAct tr, firstIdxWhere isFetchAct tr with
  | some i, some j => decide (i < j)
  | some _, none => true
  | none, _ => false

/-! ## Concrete handler scenarios -/

/-- A well-formed S3 notification record. -/
def mkS3Record (name tstr bucket key : String) : JsVal :=
  JsVal.jobj [("eventName", JsVal.jstr name),
              ("eventTime", JsVal.jstr tstr),
              ("s3", JsVal.jobj
                [("bucket", JsVal.jobj [("name", JsVal.jstr bucket)]),
                 ("object", JsVal.jobj [("key", JsVal.jstr key)])])]

/-- An SNS message value: an object with only a `Records` array (in
particular no `bucket` or `object` fields — what main.js:171 would need). -/
def msgOf (records : List JsVal) : JsVal :=
  JsVal.jobj [("Records", JsVal.jarr records)]

/-- Decimal digits to a number (used only by the concrete scenarios). -/
def digitsToNat : List Char → Nat → Nat
  | [], acc => acc
  | c :: cs, acc =>
    if isDigitChar c then digitsToNat cs (acc * 10 + (c.toNat - 48)) else acc

/-- Concrete `Date`-parsing oracle: reads a decimal millisecond value. -/
def dParse : JsVal → Nat := fun v => digitsToNat (jsToString v).data 0

/-- Fetch oracle: storage/decompression always fails. -/
def fetchNone : String → String → Option String := fun _ _ => none

/-- Fetch oracle: always returns the one-valid-line blob. -/
def fetchOne : String → String → Option String := fun _ _ => some c9OneBlob

def putRec : JsVal := mkS3Record putName "5" "b" "k"

def copy5Rec : JsVal := mkS3Record "ObjectCreated:Copy" "5" "b" "k"

def copy3Rec : JsVal := mkS3Record "ObjectCreated:Copy" "3" "b" "k"

def putMsg : JsVal := msgOf [putRec]

def c5Recs : List JsVal := [copy5Rec, copy3Rec, copy5Rec]

/-! ## `JSON.parse` (main.js:156-157)

A fueled JSON parser: values are objects, arrays, strings (with the
standard escapes), numbers (kept as their lexeme — the handler never
uses a numeric value), `true`/`false`/`null`.  A failed parse models the
thrown `SyntaxError`.  `JSON.parse` requires the whole input consumed up
to trailing whitespace. -/

/-- JSON insignificant whitespace. -/
def jsonWsChar (c : Char) : Bool :=
  c = ' ' || c = '\t' || c = '\n' || c = '\r'

def skipJsonWs : List Char → List Char
  | [] => []
  | c :: cs => if jsonWsChar c then skipJsonWs cs else c :: cs

def hexVal (c : Char) : Option Nat :=
  if 48 ≤ c.toNat ∧ c.toNat ≤ 57 then some (c.toNat - 48)
  else if 97 ≤ c.toNat ∧ c.toNat ≤ 102 then some (c.toNat - 87)
  else if 65 ≤ c.toNat ∧ c.toNat ≤ 70 then some (c.toNat - 55)
  else none

/-- Body of a JSON string literal after the opening quote: returns the
decoded characters and the input after the closing quote. -/
def parseStrChars : Nat → List Char → Option (List Char × List Char)
  | 0, _ => none
  | Nat.succ fuel, s =>
    match s with
    | [] => none
    | '"' :: r => some ([], r)
    | '\\' :: r =>
      match r with
      | [] => none
      | e :: r2 =>
        if e = '"' then (parseStrChars fuel r2).map (fun pr => ('"' :: pr.1, pr.2))
        else if e = '\\' then (parseStrChars fuel r2).map (fun pr => ('\\' :: pr.1, pr.2))
        else if e = '/' then (parseStrChars fuel r2).map (fun pr => ('/' :: pr.1, pr.2))
        else if e = 'b' then (parseStrChars fuel r2).map (fun pr => ('\x08' :: pr.1, pr.2))
        else if e = 'f' then (parseStrChars fuel r2).map (fun pr => ('\x0c' :: pr.1, pr.2))
        else if e = 'n' then (parseStrChars fuel r2).map (fun pr => ('\n' :: pr.1, pr.2))
        else if e = 'r' then (parseStrChars fuel r2).map (fun pr => ('\r' :: pr.1, pr.2))
        else if e = 't' then (parseStrChars fuel r2).map (fun pr => ('\t' :: pr.1, pr.2))
        else if e = 'u' then
          match r2 with
          | a :: b :: c :: d :: r3 =>
            match hexVal a, hexVal b, hexVal c, hexVal d with
            | some ha, some hb, some hc, some hd =>
              (parseStrChars fuel r3).map
                (fun pr => (Char.ofNat (((ha * 16 + hb) * 16 + hc) * 16 + hd) :: pr.1, pr.2))
            | _, _, _, _ => none
          | _ => none
        else none
    | c :: r =>
      if c.toNat < 32 then none
      else (parseStrChars fuel r).map (fun pr => (c :: pr.1, pr.2))

def spanDigits : List Char → List Char × List Char
  | [] => ([], [])
  | c :: cs =>
    if isDigitChar c then
      let pr := spanDigits cs
      (c :: pr.1, pr.2)
    else ([], c :: cs)

/-- JSON integer part (no leading zero except a lone 0). -/
def parseIntPart : List Char → Option (List Char × List Char)
  | [] => none
  | c :: cs =>
    if c = '0' then some (['0'], cs)
    else if isDigitChar c then
      let pr := spanDigits cs
      some (c :: pr.1, pr.2)
    else none

/-- Optional JSON fraction part. -/
def parseFracPart : List Char → Option (List Char × List Char)
  | '.' :: cs =>
    match spanDigits cs with
    | ([], _) => none
    | (ds, r) => some ('.' :: ds, r)
  | s => some ([], s)

/-- Optional JSON exponent part. -/
def parseExpPart : List Char → Option (List Char × List Char)
  | [] => some ([], [])
  | c :: cs =>
    if c = 'e' ∨ c = 'E' then
      match cs with
      | [] => none
      | sg :: cs2 =>
        if sg = '+' ∨ sg = '-' then
          match spanDigits cs2 with
          | ([], _) => none
          | (ds, r) => some (c :: sg :: ds, r)
        else
          match spanDigits cs with
          | ([], _) => none
          | (ds, r) => some (c :: ds, r)
    else some ([], c :: cs)

/-- A JSON number lexeme. -/
def parseNumLex (s : List Char) : Option (List Char × List Char) :=
  match s with
  | '-' :: cs =>
    (parseIntPart cs).bind fun pr1 =>
      (parseFracPart pr1.2).bind fun pr2 =>
        (parseExpPart pr2.2).map fun pr3 =>
          ('-' :: (pr1.1 ++ pr2.1 ++ pr3.1), pr3.2)
  | _ =>
    (parseIntPart s).bind fun pr1 =>
      (parseFracPart pr1.2).bind fun pr2 =>
        (parseExpPart pr2.2).map fun pr3 =>
          (pr1.1 ++ pr2.1 ++ pr3.1, pr3.2)

/-- A parse task: a value, the members of an object (positioned at a
key), or the elements of an array (positioned at a value). -/
inductive PJob where
  | val (s : List Char)
  | objm (s : List Char) (acc : List (String × JsVal))
  | arrm (s : List Char) (acc : List JsVal)

/-- The matching results. -/
inductive POut where
  | val (v : JsVal) (rest : List Char)
  | objm (fs : List (String × JsVal)) (rest : List Char)
  | arrm (xs : List JsVal) (rest : List Char)

/-- Fueled recursive-descent JSON parser. -/
def pstep : Nat → PJob → Option POut
  | 0, _ => none
  | Nat.succ fuel, PJob.val s =>
    match skipJsonWs s with
    | [] => none
    | c :: r =>
      if c = '"' then
        (parseStrChars (r.length + 1) r).map
          (fun pr => POut.val (JsVal.jstr (String.mk pr.1)) pr.2)
      else if c = lbrace then
        match skipJsonWs r with
        | [] => none
        | c2 :: r2 =>
          if c2 = rbrace then some (POut.val (JsVal.jobj []) r2)
          else
            match pstep fuel (PJob.objm (c2 :: r2) []) with
            | some (POut.objm fs rest) => some (POut.val (JsVal.jobj fs) rest)
            | _ => none
      else if c = '[' then
        match skipJsonWs r with
        | [] => none
        | c2 :: r2 =>
          if c2 = ']' then some (POut.val (JsVal.jarr []) r2)
          else
            match pstep fuel (PJob.arrm (c2 :: r2) []) with
            | some (POut.arrm xs rest) => some (POut.val (JsVal.jarr xs) rest)
            | _ => none
      else
        match c :: r with
        | 'n' :: 'u' :: 'l' :: 'l' :: r2 => some (POut.val JsVal.jnull r2)
        | 't' :: 'r' :: 'u' :: 'e' :: r2 => some (POut.val (JsVal.jbool true) r2)
        | 'f' :: 'a' :: 'l' :: 's' :: 'e' :: r2 => some (POut.val (JsVal.jbool false) r2)
        | s2 =>
          (parseNumLex s2).map (fun pr => POut.val (JsVal.jnum (String.mk pr.1)) pr.2)
  | Nat.succ fuel, PJob.objm s acc =>
    match s with
    | '"' :: r =>
      match parseStrChars (r.length + 1) r with
      | none => none
      | some (kcs, r1) =>
        match skipJsonWs r1 with
        | ':' :: r2 =>
          match pstep fuel (PJob.val r2) with
          | some (POut.val v r3) =>
            match skipJsonWs r3 with
            | [] => none
            | ',' :: r4 =>
              match skipJsonWs r4 with
              | [] => none
              | c5 :: r5 => pstep fuel (PJob.objm (c5 :: r5) (acc ++ [(String.mk kcs, v)]))
            | c4 :: r4 =>
              if c4 = rbrace then some (POut.objm (acc ++ [(String.mk kcs, v)]) r4)
              else none
          | _ => none
        | _ => none
    | _ => none
  | Nat.succ fuel, PJob.arrm s acc =>
    match pstep fuel (PJob.val s) with
    | some (POut.val v r1) =>
      match skipJsonWs r1 with
      | ',' :: r2 => pstep fuel (PJob.arrm r2 (acc ++ [v]))
      | ']' :: r2 => some (POut.arrm (acc ++ [v]) r2)
      | _ => none
    | _ => none

/-- The `SyntaxError` of a failed `JSON.parse`. -/
def jsonSyntaxErr : JsErr := JsErr.syntaxError "Unexpected token in JSON"

/-- `JSON.parse(s)`: parse one value, allow trailing whitespace only. -/
def jsonParse (s : String) : Except JsErr JsVal :=
  match pstep (2 * s.data.length + 8) (PJob.val s.data) with
  | some (POut.val v rest) =>
    if (skipJsonWs rest).isEmpty then Except.ok v else Except.error jsonSyntaxErr
  | _ => Except.error jsonSyntaxErr

/-- The POST handler (main.js:155-182): `JSON.parse(req.body)` (156),
`JSON.parse(newBody.Message)` (157) — `JSON.parse` coerces its argument
to a string — then `snsMessage.Records.forEach(...)` (160) and
`res.sendStatus(200)` (181).  The handler is `async` with no try/catch,
so a throw in lines 156-160 rejects the handler promise before
`sendStatus` runs: Express 4 sends no response for it (modelled as
`Except.error`).  The `forEach` callbacks are `async`: their outcomes
(processed here one record at a time) cannot affect the 200, which is
sent as soon as the synchronous part finishes. -/
def handlerFull (dateMs : JsVal → Nat) (fetch : String → String → Option String)
    (times : Nat → Nat) (body : String) (w : Nat) :
    Except JsErr (Nat × List ProcOutcome × Nat) :=
  match jsonParse body with
  | Except.error e => Except.error e
  | Except.ok outer =>
    match member outer "Message" with
    | Except.error e => Except.error e
    | Except.ok mv =>
      match jsonParse (jsToString mv) with
      | Except.error e => Except.error e
      | Except.ok msg =>
        match member msg "Records" with
        | Except.error e => Except.error e
        | Except.ok rv =>
          match rv with
          | JsVal.jarr recs =>
            let res := processSeq dateMs fetch times msg recs w
            Except.ok (200, res.1, res.2)
          | JsVal.jundef =>
            Except.error
              (JsErr.typeError "Cannot read properties of undefined (reading forEach)")
          | _ =>
            Except.error
              (JsErr.typeError "snsMessage.Records.forEach is not a function")

/-- The double-encoded SNS body used by the concrete scenarios: a
`Message` string wrapping a `Records` array with one Put record
(bucket `b`, key `k`, eventTime `5`). -/
def c3Body : String :=
  "\x7b\"Message\": \"\x7b\\\"Records\\\":[\x7b\\\"eventName\\\":\\\"ObjectCreated:Put\\\",\\\"eventTime\\\":\\\"5\\\",\\\"s3\\\":\x7b\\\"bucket\\\":\x7b\\\"name\\\":\\\"b\\\"\x7d,\\\"object\\\":\x7b\\\"key\\\":\\\"k\\\"\x7d\x7d\x7d]\x7d\"\x7d"

/-- The inner message text carried by `c3Body`. -/
def c3Inner : String :=
  "\x7b\"Records\":[\x7b\"eventName\":\"ObjectCreated:Put\",\"eventTime\":\"5\",\"s3\":\x7b\"bucket\":\x7b\"name\":\"b\"\x7d,\"object\":\x7b\"key\":\"k\"\x7d\x7d\x7d]\x7d"

/-! ## Module top level (main.js:58-77, 184-186) -/

/-- Identifiers in scope at main.js:77: the require bindings (59-63),
the clients (66-67), `lastUpdated` (71), the env constants (74-76), and
the hoisted function declarations. -/
def topLevelScope : List String :=
  ["AWS", "Express", "parser", "request", "ungzip", "s3", "snsListener",
   "lastUpdated", "LOKI_USER", "LOKI_PASSWORD", "LOKI_ENDPOINT",
   "fetchLogObject", "sendToLoki"]

/-- The identifiers that the bare expression of main.js:77
(`logs-prod-us-central1.grafana.net/loki/api/v1/push`, which parses as
subtractions and divisions of identifiers with property reads) resolves,
in left-to-right evaluation order. -/
def line77Idents : List String :=
  ["logs", "prod", "us", "central1", "loki", "api", "v1", "push"]

/-- Evaluate an expression that reads the given identifiers in order:
the first one missing from scope raises a `ReferenceError`. -/
def evalIdents (scope : List String) : List String → Except JsErr Unit
  | [] => Except.ok ()
  | n :: ns =>
    if scope.contains n then evalIdents scope ns
    else Except.error (JsErr.referenceError n)

/-- Module evaluation from line 77 on: evaluate the bare expression;
only if it does not throw does control reach `snsListener.listen`
(main.js:184) and start the HTTP listener. -/
def moduleTopLevel : Except JsErr String :=
  match evalIdents topLevelScope line77Idents with
  | Except.error e => Except.error e
  | Except.ok _ => Except.ok "listening"

/-! ## Theorems -/

theorem splitNl_ne_nil (s : List Char) : splitNl s ≠ [] := by
  induction s with
  | nil => simp [splitNl]
  | cons c cs ih =>
    simp only [splitNl]
    split
    · simp
    · split
      · simp
      · simp

/-- Splitting a blob with one more trailing newline appends one empty
segment (the artifact that `pop` removes). -/
theorem splitNl_append_newline (b : List Char) :
    splitNl (b ++ ['\n']) = splitNl b ++ [[]] := by
  induction b with
  | nil => simp [splitNl]
  | cons c cs ih =>
    by_cases hc : c = '\n'
    · subst hc
      simp [splitNl, ih]
    · rw [List.cons_append]
      simp only [splitNl, if_neg hc]
      rw [ih]
      match hsp : splitNl cs with
      | [] => exact absurd hsp (splitNl_ne_nil cs)
      | l :: ls => simp

/-- A successful match returns exactly one capture per capturing group. -/
theorem mstep_len : ∀ (fuel : Nat) (job : MJob) (r : List String),
    mstep fuel job = some r → r.length = jobLen job := by
  intro fuel
  induction fuel with
  | zero => intro job r h; simp [mstep] at h
  | succ fuel ih =>
    intro job r h
    cases job with
    | run ps s acc =>
      match ps with
      | [] =>
        simp only [mstep, Option.some.injEq] at h
        subst h; simp [jobLen, groupCount]
      | RElem.lit c :: ps' =>
        match s with
        | [] => simp [mstep] at h
        | c' :: s' =>
          simp only [mstep] at h
          split at h
          · have := ih _ _ h
            simpa [jobLen, groupCount] using this
          · exact absurd h (by simp)
      | RElem.ws :: ps' =>
        simp only [mstep] at h
        have := ih _ _ h
        simpa [jobLen, groupCount] using this
      | RElem.lazyCap :: ps' =>
        simp only [mstep] at h
        have := ih _ _ h
        simp only [jobLen, groupCount, if_true] at this ⊢
        omega
      | RElem.lazySkip :: ps' =>
        simp only [mstep] at h
        have := ih _ _ h
        simpa [jobLen, groupCount] using this
      | RElem.digitsCap :: ps' =>
        simp only [mstep] at h
        have := ih _ _ h
        simp only [jobLen, groupCount] at this ⊢
        omega
    | wsb ps s acc j =>
      match j with
      | 0 => simp [mstep] at h
      | Nat.succ j' =>
        simp only [mstep] at h
        split at h
        · next r' hr =>
          cases h
          have := ih _ _ hr
          simpa [jobLen] using this
        · have := ih _ _ h
          simpa [jobLen] using this
    | lazy cap taken ps s acc =>
      simp only [mstep] at h
      split at h
      · next r' hr =>
        cases h
        have := ih _ _ hr
        cases cap <;> simpa [jobLen] using this
      · match s with
        | [] => simp at h
        | c :: s' =>
          simp only at h
          split at h
          · have := ih _ _ h
            simpa [jobLen] using this
          · exact absurd h (by simp)
    | dig ps s acc j =>
      match j with
      | 0 => simp [mstep] at h
      | Nat.succ j' =>
        simp only [mstep] at h
        split at h
        · next r' hr =>
          cases h
          have := ih _ _ hr
          simpa [jobLen] using this
        · have := ih _ _ h
          simpa [jobLen] using this

theorem groupCount_albRegex : groupCount albRegex = 21 := by decide

/-- A line that matches yields exactly 21 captures. -/
theorem lineMatch_length (s : List Char) (caps : List String)
    (h : lineMatch s = some caps) : caps.length = 21 := by
  have := mstep_len (albFuel s) (MJob.run albRegex s []) caps h
  simpa [jobLen, groupCount_albRegex] using this

theorem lokiRun_all_match (times : Nat → Nat) :
    ∀ (lines : List (List Char)) (idx : Nat),
      (∀ l ∈ lines, (lineMatch l).isSome) →
      lokiRun times idx lines = (lokiEntries times idx lines, none) := by
  intro lines
  induction lines with
  | nil => intro idx _; simp [lokiRun, lokiEntries]
  | cons line rest ih =>
    intro idx hall
    have hline : (lineMatch line).isSome := hall line (by simp)
    match hm : lineMatch line with
    | none => rw [hm] at hline; simp at hline
    | some caps =>
      simp only [lokiRun, hm, lokiEntries, ih (idx + 1) (fun l hl => hall l (by simp [hl])),
        Option.getD_some]

theorem lokiRun_stops_at_bad (times : Nat → Nat) :
    ∀ (good : List (List Char)) (bad : List Char) (rest : List (List Char)) (idx : Nat),
      (∀ l ∈ good, (lineMatch l).isSome) → lineMatch bad = none →
      lokiRun times idx (good ++ bad :: rest)
        = (lokiEntries times idx good, some nullGroupsErr) := by
  intro good
  induction good with
  | nil => intro bad rest idx _ hbad; simp [lokiRun, lokiEntries, hbad]
  | cons line g ih =>
    intro bad rest idx hall hbad
    have hline : (lineMatch line).isSome := hall line (by simp)
    match hm : lineMatch line with
    | none => rw [hm] at hline; simp at hline
    | some caps =>
      have hrec := ih bad rest (idx + 1) (fun l hl => hall l (by simp [hl])) hbad
      simp only [List.cons_append, lokiRun, hm, lokiEntries, List.append_eq, hrec,
        Option.getD_some]

theorem lokiEntries_length (times : Nat → Nat) :
    ∀ (lines : List (List Char)) (idx : Nat),
      (lokiEntries times idx lines).length = lines.length := by
  intro lines
  induction lines with
  | nil => intro idx; simp [lokiEntries]
  | cons line rest ih => intro idx; simp [lokiEntries, ih (idx + 1)]

theorem lokiEntries_getD (times : Nat → Nat) :
    ∀ (lines : List (List Char)) (idx i : Nat), i < lines.length →
      (lokiEntries times idx lines).getD i (0, "")
        = (times (idx + i) * 1000000,
           jsonStringify (albKeys.zip ((lineMatch (lines.getD i [])).getD []))) := by
  intro lines
  induction lines with
  | nil => intro idx i h; simp at h
  | cons line rest ih =>
    intro idx i h
    match i with
    | 0 => simp [lokiEntries]
    | Nat.succ i' =>
      have h' : i' < rest.length := by simpa using h
      have := ih (idx + 1) i' h'
      simpa [lokiEntries, Nat.add_assoc, Nat.add_comm 1 i'] using this

theorem lokiEntries_chain (times : Nat → Nat)
    (hmono : ∀ i j : Nat, i ≤ j → times i ≤ times j) :
    ∀ (lines : List (List Char)) (idx : Nat),
      List.Chain' (fun a b : Nat × String => a.1 ≤ b.1)
        (lokiEntries times idx lines) := by
  intro lines
  induction lines with
  | nil => intro idx; simp [lokiEntries]
  | cons line rest ih =>
    intro idx
    match rest with
    | [] => simp [lokiEntries]
    | l2 :: r2 =>
      rw [lokiEntries, lokiEntries]
      refine List.Chain'.cons ?_ ?_
      · exact Nat.mul_le_mul_right _ (hmono idx (idx + 1) (Nat.le_succ idx))
      · have := ih (idx + 1)
        rwa [lokiEntries] at this

/-! ## Claims C1, C2, C8, C9 -/

set_option maxRecDepth 20000 in
/-- C1 counterexample: in blob `c1Blob` (valid line, malformed line `x`,
valid line) the malformed line makes the blob-level parse throw
`nullGroupsErr`; only the first line's push is issued and the valid line
after the malformed one is never parsed or forwarded — refuting the claim
that a malformed line is skipped without a throw and every other line is
still forwarded. -/
theorem c1_counterexample :
    sendToLoki idTimes c1Blob
      = ([(1000000, jsonStringify (albKeys.zip wCaps))], some nullGroupsErr)
    ∧ (linesOf c1Blob).length = 3 := by
  constructor
  · decide
  · decide

/-- C1 (amended): a line that does not match the grammar makes the
blob-level parse throw a TypeError (reading the capture groups of the
`null` match, main.js:114): the `sendToLoki` promise rejects, the lines
before the malformed one are parsed and forwarded, and the malformed line
and every line after it are not forwarded. -/
theorem c1_malformed_line_aborts (times : Nat → Nat) (blob : String)
    (good rest : List (List Char)) (bad : List Char)
    (hdec : linesOf blob = good ++ bad :: rest)
    (hgood : ∀ l ∈ good, (lineMatch l).isSome)
    (hbad : lineMatch bad = none) :
    sendToLoki times blob = (lokiEntries times 0 good, some nullGroupsErr)
    ∧ (sendToLoki times blob).1.length = good.length := by
  have h : sendToLoki times blob = (lokiEntries times 0 good, some nullGroupsErr) := by
    rw [sendToLoki, hdec]
    exact lokiRun_stops_at_bad times good bad rest 0 hgood hbad
  exact ⟨h, by rw [h]; exact lokiEntries_length times good 0⟩

theorem c1_malformed_line_aborts_witness :
    sendToLoki idTimes c1Blob = (lokiEntries idTimes 0 [wLine], some nullGroupsErr)
    ∧ (sendToLoki idTimes c1Blob).1.length = 1 :=
  c1_malformed_line_aborts idTimes c1Blob [wLine] [wLine] "x".data
    (by decide) (by decide) (by decide)

/-- C2 counterexample: the concrete matching line `wLine` yields a record
with 21 fields, refuting the claim that a matching line yields a record
with exactly 20 named fields. -/
theorem c2_counterexample :
    lineMatch wLine = some wCaps ∧ (albKeys.zip wCaps).length ≠ 20 := by
  constructor
  · decide
  · decide

/-- C2 (amended): every line matching the fixed grammar yields a record
with exactly the 21 named fields of the schema (type, time, …,
status_code — the source regex and key list both have 21 entries, not
20), keyed in source order, each value one of the captured strings. -/
theorem c2_record_has_21_fields (s : List Char) (caps : List String)
    (h : lineMatch s = some caps) :
    (albKeys.zip caps).length = 21
    ∧ (albKeys.zip caps).map Prod.fst = albKeys
    ∧ (albKeys.zip caps).map Prod.snd = caps := by
  have hlen := lineMatch_length s caps h
  have hk : albKeys.length = 21 := by decide
  refine ⟨?_, ?_, ?_⟩
  · simp [hlen, hk]
  · exact List.map_fst_zip _ _ (by simp [hlen, hk])
  · exact List.map_snd_zip _ _ (by simp [hlen, hk])

theorem c2_record_has_21_fields_witness :
    (albKeys.zip wCaps).length = 21
    ∧ (albKeys.zip wCaps).map Prod.fst = albKeys
    ∧ (albKeys.zip wCaps).map Prod.snd = wCaps :=
  c2_record_has_21_fields wLine wCaps (by decide)

/-- C8: splitting a blob on newline and dropping the final element
(main.js:101-102) yields one slot per actual log line and no spurious
empty record: appending a trailing newline adds exactly the empty segment
that `pop` removes, and the example blob `"lineA\nlineB\n"` yields
exactly the two lines `lineA` and `lineB`. -/
theorem c8_trailing_newline :
    (∀ b : List Char, linesOfL (b ++ ['\n']) = splitNl b)
    ∧ linesOf c8Blob = ["lineA".data, "lineB".data]
    ∧ (linesOf c8Blob).length = 2 := by
  refine ⟨?_, by decide, by decide⟩
  intro b
  simp [linesOfL, splitNl_append_newline]

set_option maxRecDepth 20000 in
/-- C9 counterexample: the payload formatted for a valid record is the
serialization of a 21-field record, refuting the claim that each payload
contains all "20" field values of the schema (the schema has 21 fields). -/
theorem c9_counterexample :
    sendToLoki idTimes c9OneBlob
      = ([(1000000, jsonStringify (albKeys.zip wCaps))], none)
    ∧ (albKeys.zip wCaps).length ≠ 20 := by
  constructor
  · decide
  · decide

/-- C9 (amended): given N valid records, formatting yields exactly N
timestamp/payload pairs; pair `i` carries `times i * 1000000` — the
current wall clock at formatting time in nanoseconds, not the log line's
own time field — and the JSON serialization of the full 21-field record
(the schema has 21 fields, not 20); with a nondecreasing wall clock the
timestamps are nondecreasing in issuance order. -/
theorem c9_format_batch (times : Nat → Nat) (blob : String)
    (hall : ∀ l ∈ linesOf blob, (lineMatch l).isSome)
    (hmono : ∀ i j : Nat, i ≤ j → times i ≤ times j) :
    (sendToLoki times blob).2 = none
    ∧ (sendToLoki times blob).1.length = (linesOf blob).length
    ∧ (∀ i, i < (linesOf blob).length →
        ∃ caps, lineMatch ((linesOf blob).getD i []) = some caps
          ∧ caps.length = 21
          ∧ (sendToLoki times blob).1.getD i (0, "")
              = (times i * 1000000, jsonStringify (albKeys.zip caps)))
    ∧ List.Chain' (fun a b : Nat × String => a.1 ≤ b.1) (sendToLoki times blob).1 := by
  have hrun := lokiRun_all_match times (linesOf blob) 0 hall
  have hsend : sendToLoki times blob = (lokiEntries times 0 (linesOf blob), none) := by
    rw [sendToLoki, hrun]
  refine ⟨by rw [hsend], by rw [hsend]; exact lokiEntries_length times _ 0, ?_, ?_⟩
  · intro i hi
    have hline : (lineMatch ((linesOf blob).getD i [])).isSome := by
      apply hall
      rw [List.getD_eq_getElem?_getD, List.getElem?_eq_getElem hi]
      exact List.getElem_mem hi
    match hm : lineMatch ((linesOf blob).getD i []) with
    | none => rw [hm] at hline; simp at hline
    | some caps =>
      refine ⟨caps, rfl, lineMatch_length _ _ hm, ?_⟩
      rw [hsend]
      show (lokiEntries times 0 (linesOf blob)).getD i (0, "") = _
      rw [lokiEntries_getD times (linesOf blob) 0 i hi, Nat.zero_add, hm]
      rfl
  · rw [hsend]
    exact lokiEntries_chain times hmono (linesOf blob) 0

theorem c9_format_batch_witness :
    (sendToLoki idTimes c9Blob).2 = none
    ∧ (sendToLoki idTimes c9Blob).1.length = 2 := by
  have h := c9_format_batch idTimes c9Blob (by decide)
    (fun i j hij => Nat.add_le_add_right hij 1)
  refine ⟨h.1, ?_⟩
  rw [h.2.1]
  decide

/-! ## Watermark lemmas -/

theorem le_foldl_max (b : Nat) (ts : List Nat) : b ≤ List.foldl max b ts := by
  induction ts generalizing b with
  | nil => simp
  | cons t ts ih => exact le_trans (Nat.le_max_left b t) (ih (max b t))

theorem mem_le_foldl_max (t : Nat) :
    ∀ (ts : List Nat), t ∈ ts → ∀ b, t ≤ List.foldl max b ts := by
  intro ts
  induction ts with
  | nil => intro h; cases h
  | cons x xs ih =>
    intro ht b
    rcases List.mem_cons.mp ht with h | h
    · subst h; exact le_trans (Nat.le_max_right b t) (le_foldl_max _ xs)
    · exact ih h (max b x)

/-- Watermark contract of one error-free record: accepted iff its event
time beats the watermark, and the watermark ends at the event time on
acceptance, unchanged otherwise. -/
theorem processRecord_step (dateMs : JsVal → Nat) (fetch : String → String → Option String)
    (times : Nat → Nat) (msg r : JsVal) (w : Nat)
    (herr : (processRecord dateMs fetch times msg r w).err = none) :
    ((processRecord dateMs fetch times msg r w).accepted
       = decide (w < (processRecord dateMs fetch times msg r w).eventT))
    ∧ (processRecord dateMs fetch times msg r w).watermark
       = (if w < (processRecord dateMs fetch times msg r w).eventT
          then (processRecord dateMs fetch times msg r w).eventT else w) := by
  match hmt : member r "eventTime" with
  | Except.error e =>
    simp only [processRecord, hmt] at herr
    simp at herr
  | Except.ok tv =>
    by_cases ht : dateMs tv > w
    · simp only [processRecord, hmt, if_pos ht] at herr ⊢
      rw [herr]
      exact ⟨by simp [ht], by simp⟩
    · simp only [processRecord, hmt, if_neg ht]
      exact ⟨by simp [ht], by simp [ht]⟩

/-- The event time field is `dateMs` of the record's `eventTime` value
whenever the latter is readable. -/
theorem processRecord_eventT (dateMs : JsVal → Nat) (fetch : String → String → Option String)
    (times : Nat → Nat) (msg r : JsVal) (w : Nat) (tv : JsVal)
    (hmt : member r "eventTime" = Except.ok tv) :
    (processRecord dateMs fetch times msg r w).eventT = dateMs tv := by
  by_cases ht : dateMs tv > w
  · simp only [processRecord, hmt, if_pos ht]
  · simp only [processRecord, hmt, if_neg ht]

/-- Reprocessing the same record right after an error-free processing is
always rejected. -/
theorem processRecord_twice (dateMs : JsVal → Nat) (fetch : String → String → Option String)
    (times : Nat → Nat) (msg r : JsVal) (w : Nat)
    (herr : (processRecord dateMs fetch times msg r w).err = none) :
    (processRecord dateMs fetch times msg r
        ((processRecord dateMs fetch times msg r w).watermark)).accepted = false := by
  have hstep := processRecord_step dateMs fetch times msg r w herr
  match hmt : member r "eventTime" with
  | Except.error e =>
    simp only [processRecord, hmt] at herr
    simp at herr
  | Except.ok tv =>
    have heT := processRecord_eventT dateMs fetch times msg r w tv hmt
    by_cases ht : dateMs tv > w
    · have hwm : (processRecord dateMs fetch times msg r w).watermark = dateMs tv := by
        rw [hstep.2, heT]
        simp [ht]
      rw [hwm]
      simp only [processRecord, hmt]
      simp
    · have hwm : (processRecord dateMs fetch times msg r w).watermark = w := by
        rw [hstep.2, heT]
        simp [ht]
      rw [hwm]
      simp only [processRecord, hmt, if_neg ht]

theorem acceptedTimes_cons_acc (o : ProcOutcome) (l : List ProcOutcome)
    (h : o.accepted = true) :
    acceptedTimes (o :: l) = o.eventT :: acceptedTimes l := by
  simp [acceptedTimes, h]

theorem acceptedTimes_cons_rej (o : ProcOutcome) (l : List ProcOutcome)
    (h : o.accepted = false) :
    acceptedTimes (o :: l) = acceptedTimes l := by
  simp [acceptedTimes, h]

/-- Watermark evolution over an error-free sequence of records processed
one at a time. -/
theorem processSeq_watermark (dateMs : JsVal → Nat) (fetch : String → String → Option String)
    (times : Nat → Nat) (msg : JsVal) :
    ∀ (rs : List JsVal) (w0 : Nat),
      (∀ o ∈ (processSeq dateMs fetch times msg rs w0).1, o.err = none) →
      (processSeq dateMs fetch times msg rs w0).2
          = List.foldl max w0 (acceptedTimes (processSeq dateMs fetch times msg rs w0).1)
      ∧ (∀ t ∈ acceptedTimes (processSeq dateMs fetch times msg rs w0).1,
           w0 < t ∧ t ≤ (processSeq dateMs fetch times msg rs w0).2)
      ∧ (acceptedTimes (processSeq dateMs fetch times msg rs w0).1 ≠ [] →
           (processSeq dateMs fetch times msg rs w0).2
             ∈ acceptedTimes (processSeq dateMs fetch times msg rs w0).1) := by
  intro rs
  induction rs with
  | nil => intro w0 _; simp [processSeq, acceptedTimes]
  | cons r rs ih =>
    intro w0 hall
    have hcons : (processSeq dateMs fetch times msg (r :: rs) w0).1
        = processRecord dateMs fetch times msg r w0
            :: (processSeq dateMs fetch times msg rs
                  (processRecord dateMs fetch times msg r w0).watermark).1 := rfl
    have hsnd : (processSeq dateMs fetch times msg (r :: rs) w0).2
        = (processSeq dateMs fetch times msg rs
             (processRecord dateMs fetch times msg r w0).watermark).2 := rfl
    have ho : (processRecord dateMs fetch times msg r w0).err = none := by
      apply hall
      rw [hcons]
      exact List.mem_cons_self _ _
    have htail := ih (processRecord dateMs fetch times msg r w0).watermark
      (fun o hmem => hall o (by rw [hcons]; exact List.mem_cons_of_mem _ hmem))
    have hstep := processRecord_step dateMs fetch times msg r w0 ho
    by_cases hacc : (processRecord dateMs fetch times msg r w0).accepted = true
    · have hgt : w0 < (processRecord dateMs fetch times msg r w0).eventT :=
        of_decide_eq_true (hstep.1.symm.trans hacc)
      have hwm : (processRecord dateMs fetch times msg r w0).watermark
          = (processRecord dateMs fetch times msg r w0).eventT := by
        rw [hstep.2, if_pos hgt]
      rw [hcons, hsnd, hwm]
      rw [hwm] at htail
      rw [acceptedTimes_cons_acc _ _ hacc]
      refine ⟨?_, ?_, ?_⟩
      · rw [htail.1, List.foldl_cons, Nat.max_eq_right (le_of_lt hgt)]
      · intro t htmem
        rcases List.mem_cons.mp htmem with h | h
        · subst h
          exact ⟨hgt, htail.1 ▸ le_foldl_max _ _⟩
        · rcases htail.2.1 t h with ⟨h1, h2⟩
          exact ⟨lt_trans hgt h1, h2⟩
      · intro _
        by_cases hne : acceptedTimes (processSeq dateMs fetch times msg rs
            (processRecord dateMs fetch times msg r w0).eventT).1 = []
        · rw [htail.1, hne]
          simp
        · exact List.mem_cons_of_mem _ (htail.2.2 hne)
    · have hnacc : (processRecord dateMs fetch times msg r w0).accepted = false :=
        Bool.eq_false_iff.mpr hacc
      have hle : ¬ w0 < (processRecord dateMs fetch times msg r w0).eventT := by
        intro hcon
        rw [hstep.1, decide_eq_true hcon] at hnacc
        cases hnacc
      have hwm : (processRecord dateMs fetch times msg r w0).watermark = w0 := by
        rw [hstep.2, if_neg hle]
      rw [hcons, hsnd, hwm]
      rw [hwm] at htail
      rw [acceptedTimes_cons_rej _ _ hnacc]
      exact htail

/-! ## Trace-position helpers -/

theorem filter_submit_map (p : Action → Bool)
    (hp : ∀ a b, p (Action.submit a b) = false) (l : List (Nat × String)) :
    (l.map (fun en => Action.submit en.1 en.2)).filter p = [] := by
  induction l with
  | nil => simp
  | cons x xs ih => simp [hp, ih]

theorem firstIdxWhere_submit_map (p : Action → Bool)
    (hp : ∀ a b, p (Action.submit a b) = false)
    (l : List (Nat × String)) (rest : List Action) :
    firstIdxWhere p (l.map (fun en => Action.submit en.1 en.2) ++ rest)
      = (firstIdxWhere p rest).map (· + l.length) := by
  induction l with
  | nil =>
    simp only [List.map_nil, List.nil_append, List.length_nil]
    cases firstIdxWhere p rest <;> simp
  | cons x xs ih =>
    simp only [List.map_cons, List.cons_append, firstIdxWhere, List.append_eq]
    rw [hp, ih]
    cases firstIdxWhere p rest with
    | none => simp
    | some k =>
      simp
      omega

/-! ## Claims C4, C5, C6, C7 -/

/-- C4: evaluation of the code at the failing input.  An accepted
`ObjectCreated:Put` record whose fetch fails does log the caught error
(main.js:93), but the diagnostic of main.js:171 then reads
`snsMessage.bucket.name` — the parsed message has no `bucket` field — so
the callback throws a TypeError instead of returning quietly, and the
watermark assignment of line 176 is skipped. -/
theorem c4_fetch_failure_raises_typeerror :
    processRecord dParse fetchNone idTimes putMsg putRec 0
      = ⟨[Action.readWm 0, Action.fetchObj "b" "k", Action.logErr], true, 0, 5,
         some (JsErr.typeError "Cannot read properties of undefined (reading name)")⟩ := by
  decide

/-- C5 counterexample: an accepted Put event whose fetch fails does not
advance the watermark (the claim says acceptance advances it), and
processing the identical event again from the resulting state accepts it
a second time — refuting "calling accept twice with the same event never
accepts it twice". -/
theorem c5_counterexample :
    (processRecord dParse fetchNone idTimes putMsg putRec 0).accepted = true
    ∧ (processRecord dParse fetchNone idTimes putMsg putRec 0).watermark = 0
    ∧ (processRecord dParse fetchNone idTimes putMsg putRec
        ((processRecord dParse fetchNone idTimes putMsg putRec 0).watermark)).accepted
        = true := by
  decide

/-- C5 (amended): the watermark test accepts iff `eventTime` strictly
exceeds the watermark; but the watermark is advanced to the event time
only when the record's processing completes without a thrown error
(unchanged on rejection, and also unchanged when an accepted event's
processing throws).  Consequently, for records processed to completion
one at a time with no errors: the final watermark is the fold of `max`
over the accepted event times (their maximum when any event was
accepted), every accepted time strictly exceeds the initial watermark and
is bounded by the final one, and reprocessing a record right after its
error-free processing is always rejected. -/
theorem c5_dedup_watermark (dateMs : JsVal → Nat)
    (fetch : String → String → Option String) (times : Nat → Nat) (msg : JsVal) :
    (∀ (r : JsVal) (w : Nat), (processRecord dateMs fetch times msg r w).err = none →
        ((processRecord dateMs fetch times msg r w).accepted = true
            ↔ w < (processRecord dateMs fetch times msg r w).eventT)
        ∧ (processRecord dateMs fetch times msg r w).watermark
            = (if w < (processRecord dateMs fetch times msg r w).eventT
               then (processRecord dateMs fetch times msg r w).eventT else w)
        ∧ (processRecord dateMs fetch times msg r
              ((processRecord dateMs fetch times msg r w).watermark)).accepted = false)
    ∧ (∀ (rs : List JsVal) (w0 : Nat),
        (∀ o ∈ (processSeq dateMs fetch times msg rs w0).1, o.err = none) →
        (processSeq dateMs fetch times msg rs w0).2
            = List.foldl max w0 (acceptedTimes (processSeq dateMs fetch times msg rs w0).1)
        ∧ (∀ t ∈ acceptedTimes (processSeq dateMs fetch times msg rs w0).1,
             w0 < t ∧ t ≤ (processSeq dateMs fetch times msg rs w0).2)
        ∧ (acceptedTimes (processSeq dateMs fetch times msg rs w0).1 ≠ [] →
             (processSeq dateMs fetch times msg rs w0).2
               ∈ acceptedTimes (processSeq dateMs fetch times msg rs w0).1)) := by
  constructor
  · intro r w herr
    have hstep := processRecord_step dateMs fetch times msg r w herr
    refine ⟨?_, hstep.2, processRecord_twice dateMs fetch times msg r w herr⟩
    rw [hstep.1]
    exact decide_eq_true_iff
  · exact processSeq_watermark dateMs fetch times msg

theorem c5_dedup_watermark_witness :
    (processSeq dParse fetchNone idTimes putMsg c5Recs 0).2
      = List.foldl max 0 (acceptedTimes (processSeq dParse fetchNone idTimes putMsg c5Recs 0).1)
    ∧ (processSeq dParse fetchNone idTimes putMsg c5Recs 0).2 = 5
    ∧ acceptedTimes (processSeq dParse fetchNone idTimes putMsg c5Recs 0).1 = [5] := by
  have h := (c5_dedup_watermark dParse fetchNone idTimes putMsg).2 c5Recs 0 (by decide)
  exact ⟨h.1, by decide, by decide⟩

set_option maxRecDepth 40000 in
/-- C6 counterexample: for a concrete accepted Put event with a
successful fetch, the trace is read, fetch, push, write — the watermark
write (index 3) comes after the fetch (index 1), refuting the claim that
the watermark is updated before the fetch and submission begin. -/
theorem c6_counterexample :
    wmUpdatedBeforeFetch (processRecord dParse fetchOne idTimes putMsg putRec 0).actions
      = false
    ∧ firstIdxWhere isFetchAct (processRecord dParse fetchOne idTimes putMsg putRec 0).actions
      = some 1
    ∧ firstIdxWhere isWriteAct (processRecord dParse fetchOne idTimes putMsg putRec 0).actions
      = some 3 := by
  decide

/-- C6 (amended): for an accepted Put event whose fetch and per-line
pushes complete without error, the watermark is read exactly once, at
acceptance time and before the fetch; but it is written exactly once at
the end of the trace, after the fetch and after all submissions — not
before they begin. -/
theorem c6_write_after_fetch_submit (dateMs : JsVal → Nat)
    (fetch : String → String → Option String) (times : Nat → Nat)
    (msg r : JsVal) (w : Nat) (tv s3v env bo oo bnv okv : JsVal) (blob : String)
    (h1 : member r "eventTime" = Except.ok tv)
    (h3 : w < dateMs tv)
    (h4 : member r "s3" = Except.ok s3v)
    (h5 : member r "eventName" = Except.ok env)
    (h5b : isPutName env = true)
    (h6 : member s3v "bucket" = Except.ok bo)
    (h7 : member s3v "object" = Except.ok oo)
    (h8 : member bo "name" = Except.ok bnv)
    (h9 : member oo "key" = Except.ok okv)
    (h10 : fetch (jsToString bnv) (jsToString okv) = some blob)
    (h11 : (sendToLoki times blob).2 = none) :
    (processRecord dateMs fetch times msg r w).actions
      = Action.readWm w
          :: Action.fetchObj (jsToString bnv) (jsToString okv)
          :: ((sendToLoki times blob).1.map (fun en => Action.submit en.1 en.2)
              ++ [Action.writeWm (dateMs tv)])
    ∧ (processRecord dateMs fetch times msg r w).actions.filter isReadAct
        = [Action.readWm w]
    ∧ (processRecord dateMs fetch times msg r w).actions.filter isWriteAct
        = [Action.writeWm (dateMs tv)]
    ∧ wmUpdatedBeforeFetch (processRecord dateMs fetch times msg r w).actions = false
    ∧ (processRecord dateMs fetch times msg r w).watermark = dateMs tv := by
  have hout : processRecord dateMs fetch times msg r w
      = ⟨Action.readWm w
          :: Action.fetchObj (jsToString bnv) (jsToString okv)
          :: ((sendToLoki times blob).1.map (fun en => Action.submit en.1 en.2)
              ++ [Action.writeWm (dateMs tv)]), true, dateMs tv, dateMs tv, none⟩ := by
    simp only [processRecord, bodyRun, h1, h4, h5, h5b, h6, h7, h8, h9, h10, h11,
      if_pos h3, if_true]
  rw [hout]
  refine ⟨rfl, ?_, ?_, ?_, rfl⟩
  · simp [List.filter_cons, List.filter_append, isReadAct,
      filter_submit_map isReadAct (fun a b => rfl)]
  · simp [List.filter_cons, List.filter_append, isWriteAct,
      filter_submit_map isWriteAct (fun a b => rfl)]
  · have hw := firstIdxWhere_submit_map isWriteAct (fun a b => rfl)
      (sendToLoki times blob).1 [Action.writeWm (dateMs tv)]
    simp only [wmUpdatedBeforeFetch, firstIdxWhere, isWriteAct, isFetchAct,
      Bool.false_eq_true, if_false, if_true, hw]
    simp [firstIdxWhere]

set_option maxRecDepth 40000 in
theorem c6_write_after_fetch_submit_witness :
    wmUpdatedBeforeFetch (processRecord dParse fetchOne idTimes putMsg putRec 0).actions
      = false
    ∧ (processRecord dParse fetchOne idTimes putMsg putRec 0).watermark = 5 := by
  have h := c6_write_after_fetch_submit dParse fetchOne idTimes putMsg putRec 0
    (JsVal.jstr "5")
    (JsVal.jobj [("bucket", JsVal.jobj [("name", JsVal.jstr "b")]),
                 ("object", JsVal.jobj [("key", JsVal.jstr "k")])])
    (JsVal.jstr putName)
    (JsVal.jobj [("name", JsVal.jstr "b")])
    (JsVal.jobj [("key", JsVal.jstr "k")])
    (JsVal.jstr "b") (JsVal.jstr "k") c9OneBlob
    rfl (by decide) rfl rfl rfl rfl rfl rfl rfl rfl (by decide)
  exact ⟨h.2.2.2.1, h.2.2.2.2⟩

/-- C7 counterexample: a concrete accepted event with eventName
`ObjectCreated:Copy` performs no fetch/parse/submit, yet the watermark is
advanced from 0 to the event's time — so the processing is not a no-op
equivalent to rejection as the claim states. -/
theorem c7_counterexample :
    (processRecord dParse fetchNone idTimes putMsg copy5Rec 0).accepted = true
    ∧ (processRecord dParse fetchNone idTimes putMsg copy5Rec 0).watermark ≠ 0
    ∧ (processRecord dParse fetchNone idTimes putMsg copy5Rec 0).actions.filter isFetchAct
        = [] := by
  decide

/-- C7 (amended): for an accepted event whose eventName is not
`ObjectCreated:Put`, no fetch, parse, or submit is performed and no error
is raised, but the watermark is still advanced to the event's time (the
`lastUpdated = eventTime` of main.js:176 sits outside the eventName
check) — the processing is not equivalent to rejection. -/
theorem c7_nonput_advances_watermark (dateMs : JsVal → Nat)
    (fetch : String → String → Option String) (times : Nat → Nat)
    (msg r : JsVal) (w : Nat) (tv s3v env : JsVal)
    (h1 : member r "eventTime" = Except.ok tv)
    (h3 : w < dateMs tv)
    (h4 : member r "s3" = Except.ok s3v)
    (h5 : member r "eventName" = Except.ok env)
    (h5b : isPutName env = false) :
    processRecord dateMs fetch times msg r w
      = ⟨[Action.readWm w, Action.writeWm (dateMs tv)], true, dateMs tv, dateMs tv,
         none⟩ := by
  simp only [processRecord, bodyRun, h1, h4, h5, h5b, if_pos h3, Bool.false_eq_true,
    if_false]

theorem c7_nonput_advances_watermark_witness :
    processRecord dParse fetchNone idTimes putMsg copy5Rec 0
      = ⟨[Action.readWm 0, Action.writeWm 5], true, 5, 5, none⟩ :=
  c7_nonput_advances_watermark dParse fetchNone idTimes putMsg copy5Rec 0
    (JsVal.jstr "5")
    (JsVal.jobj [("bucket", JsVal.jobj [("name", JsVal.jstr "b")]),
                 ("object", JsVal.jobj [("key", JsVal.jstr "k")])])
    (JsVal.jstr "ObjectCreated:Copy")
    rfl (by decide) rfl rfl rfl

/-! ## Claim C3 -/

/-- C3 counterexample: for the request body `notjson`, `JSON.parse`
throws at main.js:156; the uncaught rejection means the handler never
reaches `res.sendStatus(200)`, sends no response, and logs nothing —
refuting the claim that every inbound request is answered with 200 and
that an unparseable envelope is dropped, logged and acknowledged. -/
theorem c3_counterexample :
    handlerFull dParse fetchNone idTimes "notjson" 0 = Except.error jsonSyntaxErr := by
  rfl

/-- C3 (amended): the handler responds 200 exactly for bodies whose
envelope parses — outer JSON, a `Message` value whose string coercion
parses as JSON, and a `Records` array — and the 200 does not depend on
the outcome of record processing (the async callbacks cannot affect it).
A request whose envelope fails any of these steps gets no response: the
`JSON.parse`/property `TypeError` propagates out of the handler with
nothing logged and nothing acknowledged. -/
theorem c3_ack_iff_envelope_parses (dateMs : JsVal → Nat)
    (fetch : String → String → Option String) (times : Nat → Nat)
    (body : String) (w : Nat) (outer mv msg : JsVal) (recs : List JsVal)
    (h1 : jsonParse body = Except.ok outer)
    (h2 : member outer "Message" = Except.ok mv)
    (h3 : jsonParse (jsToString mv) = Except.ok msg)
    (h4 : member msg "Records" = Except.ok (JsVal.jarr recs)) :
    handlerFull dateMs fetch times body w
      = Except.ok (200, (processSeq dateMs fetch times msg recs w).1,
                   (processSeq dateMs fetch times msg recs w).2) := by
  simp [handlerFull, h1, h2, h3, h4]

set_option maxRecDepth 40000 in
theorem c3_ack_iff_envelope_parses_witness :
    handlerFull dParse fetchNone idTimes c3Body 0
      = Except.ok (200, (processSeq dParse fetchNone idTimes putMsg [putRec] 0).1,
                   (processSeq dParse fetchNone idTimes putMsg [putRec] 0).2)
    ∧ ((processSeq dParse fetchNone idTimes putMsg [putRec] 0).1.map ProcOutcome.err)
        = [some (JsErr.typeError "Cannot read properties of undefined (reading name)")] := by
  refine ⟨c3_ack_iff_envelope_parses dParse fetchNone idTimes c3Body 0
    (JsVal.jobj [("Message", JsVal.jstr c3Inner)]) (JsVal.jstr c3Inner) putMsg [putRec]
    rfl rfl rfl rfl, ?_⟩
  decide

/-! ## Claim C10 -/

/-- C10: evaluating the module top level raises `ReferenceError: logs is
not defined` at main.js:77 (the stray endpoint URL written outside any
string literal), so `snsListener.listen` on line 184 is never reached
and the HTTP listener does not start — the code contradicts the claim
that top-level evaluation completes without error. -/
theorem c10_toplevel_reference_error :
    moduleTopLevel = Except.error (JsErr.referenceError "logs") := by
  rfl

end AlbLoki
